import Mathlib

/-!
Verification of the evergreen historical-test-stats cache job
(`units/cache_historical_test_data.go`), the manifest load handler
(`service/api_plugin_manifest.go`) and their spec.

Shallow embedding conventions:
* `time.Time` and `time.Duration` are modelled as `Int` nanoseconds
  (Go stores both as integer nanosecond counts; `t.Add d` is `t + d`,
  `a.After b` is `a > b`).
* Fallible Go calls return `Except String α`.
* The external collaborators (checkpoint store, stats source, project
  configuration, generator functions, GitHub queries) are inputs to the
  embedded orchestrators; their observable interactions are recorded in
  traces.
-/

namespace Evergreen

/-- One nanosecond-count hour, as in Go's `time.Hour`. -/
def timeHour : Int := 3600 * 1000000000

/-- `maxSyncDuration = time.Hour * 24 * 7` (one week), from the source. -/
def maxSyncDuration : Int := timeHour * 24 * 7

/-- One day of nanoseconds, for stating the spec's worked examples. -/
def timeDay : Int := timeHour * 24

/-- Embeds `findTargetTimeForSync`: the Go function reads `time.Now()`
internally; here `now` is an explicit argument.  `maxSyncTime.After(now)`
is `maxSyncTime > now`. -/
def findTargetTimeForSync (previousSyncTime : Int) (now : Int) : Int :=
  let maxSyncTime := previousSyncTime + maxSyncDuration
  if maxSyncTime > now then now else maxSyncTime

/-! ### Regular expressions

`regexp.Compile` / `MatchString` come from the Go standard library, not from
this repository.  We model the fragment of their behaviour the code and spec
rely on: a small regular-expression language with literals, `.`, classes,
groups, alternation and repetition, parsed by a recursive-descent parser that
rejects syntactically invalid patterns (unclosed `[` or `(`), and matched with
Go's unanchored-search semantics (a leading `^` anchors at the start). -/

/-- Regular-expression syntax trees. -/
inductive RE : Type
  | emp : RE
  | eps : RE
  | lit : Char → RE
  | any : RE
  | cls : List Char → RE
  | cat : RE → RE → RE
  | alt : RE → RE → RE
  | star : RE → RE
deriving Repr, DecidableEq

/-- Does the expression accept the empty word? -/
def RE.nullable : RE → Bool
  | .emp => false
  | .eps => true
  | .lit _ => false
  | .any => false
  | .cls _ => false
  | .cat a b => a.nullable && b.nullable
  | .alt a b => a.nullable || b.nullable
  | .star _ => true

/-- Brzozowski derivative with respect to one character. -/
def RE.deriv : RE → Char → RE
  | .emp, _ => .emp
  | .eps, _ => .emp
  | .lit c, d => if c = d then .eps else .emp
  | .any, _ => .eps
  | .cls cs, d => if d ∈ cs then .eps else .emp
  | .cat a b, d =>
      if a.nullable then .alt (.cat (a.deriv d) b) (b.deriv d)
      else .cat (a.deriv d) b
  | .alt a b, d => .alt (a.deriv d) (b.deriv d)
  | .star a, d => .cat (a.deriv d) (.star a)

/-- Does the expression accept some prefix of the character list? -/
def RE.acceptsSomePrefix (r : RE) : List Char → Bool
  | [] => r.nullable
  | c :: cs => r.nullable || (r.deriv c).acceptsSomePrefix cs

/-- Does the expression accept a substring starting anywhere? -/
def RE.searchAnywhere (r : RE) : List Char → Bool
  | [] => r.nullable
  | c :: cs => r.acceptsSomePrefix (c :: cs) || r.searchAnywhere cs

/-- Parses a character class body up to the closing `]`; an exhausted input
is a syntax error (this is what makes the pattern `"(["` invalid). -/
def parseClsBody : List Char → Except String (List Char × List Char)
  | [] => .error "missing closing ]"
  | ']' :: rest => .ok ([], rest)
  | c :: rest => (parseClsBody rest).map (fun p => (c :: p.1, p.2))

/-- Applies trailing `*`, `+`, `?` operators to a parsed atom. -/
def parseRegexPostfix (r : RE) : List Char → RE × List Char
  | '*' :: rest => parseRegexPostfix (.star r) rest
  | '+' :: rest => parseRegexPostfix (.cat r (.star r)) rest
  | '?' :: rest => parseRegexPostfix (.alt .eps r) rest
  | s => (r, s)

mutual

/-- Parses an alternation `cat ('|' cat)*`. -/
def parseRegexAlt : Nat → List Char → Except String (RE × List Char)
  | 0, _ => .error "pattern too deeply nested"
  | fuel + 1, s =>
    match parseRegexCat fuel s with
    | .error e => .error e
    | .ok (r, rest) =>
      match rest with
      | '|' :: rest2 =>
        match parseRegexAlt fuel rest2 with
        | .error e => .error e
        | .ok (r2, rest3) => .ok (.alt r r2, rest3)
      | _ => .ok (r, rest)

/-- Parses a (possibly empty) concatenation of starred atoms, stopping at
`)` or `|` or the end of the pattern. -/
def parseRegexCat : Nat → List Char → Except String (RE × List Char)
  | 0, _ => .error "pattern too deeply nested"
  | fuel + 1, s =>
    match s with
    | [] => .ok (.eps, [])
    | ')' :: rest => .ok (.eps, ')' :: rest)
    | '|' :: rest => .ok (.eps, '|' :: rest)
    | _ =>
      match parseRegexFactor fuel s with
      | .error e => .error e
      | .ok (r, rest) =>
        match parseRegexCat fuel rest with
        | .error e => .error e
        | .ok (r2, rest2) => .ok (.cat r r2, rest2)

/-- Parses an atom followed by postfix repetition operators. -/
def parseRegexFactor : Nat → List Char → Except String (RE × List Char)
  | 0, _ => .error "pattern too deeply nested"
  | fuel + 1, s =>
    match parseRegexAtom fuel s with
    | .error e => .error e
    | .ok (r, rest) => .ok (parseRegexPostfix r rest)

/-- Parses one atom: a group, a class, `.`, or a literal character. -/
def parseRegexAtom : Nat → List Char → Except String (RE × List Char)
  | 0, _ => .error "pattern too deeply nested"
  | fuel + 1, s =>
    match s with
    | [] => .error "missing argument"
    | '(' :: rest =>
      match parseRegexAlt fuel rest with
      | .error e => .error e
      | .ok (r, rest2) =>
        match rest2 with
        | ')' :: rest3 => .ok (r, rest3)
        | _ => .error "missing closing )"
    | '[' :: rest =>
      match parseClsBody rest with
      | .error e => .error e
      | .ok (cs, rest2) => .ok (.cls cs, rest2)
    | '.' :: rest => .ok (.any, rest)
    | '*' :: _ => .error "missing argument to repetition operator"
    | '+' :: _ => .error "missing argument to repetition operator"
    | '?' :: _ => .error "missing argument to repetition operator"
    | '^' :: _ => .error "unsupported anchor position"
    | '$' :: _ => .error "unsupported anchor position"
    | '\\' :: _ => .error "unsupported escape"
    | c :: rest => .ok (.lit c, rest)

end

/-- A compiled pattern: the expression plus whether a leading `^` anchored
it to the start of the subject. -/
structure Regexp where
  anchored : Bool
  re : RE
deriving Repr, DecidableEq

/-- Modelled from the spec: `regexp.Compile` of the Go standard library is
not part of this repository; the spec only requires that a syntactically
invalid pattern (such as `"(["`) fails with an error while well-formed
patterns (such as `"^gen_.*"`) compile.  We compile by recursive descent
over the modelled syntax. -/
def regexpCompile (s : String) : Except String Regexp :=
  let fuel := 4 * s.data.length + 8
  match s.data with
  | '^' :: rest =>
    match parseRegexAlt fuel rest with
    | .error e => .error e
    | .ok (r, []) => .ok ⟨true, r⟩
    | .ok (_, _ :: _) => .error "unexpected trailing characters"
  | cs =>
    match parseRegexAlt fuel cs with
    | .error e => .error e
    | .ok (r, []) => .ok ⟨false, r⟩
    | .ok (_, _ :: _) => .error "unexpected trailing characters"

/-- Modelled from the spec: Go's `Regexp.MatchString` reports whether the
pattern matches somewhere in the string; a leading `^` restricts the match
to start at the beginning. -/
def Regexp.MatchString (rx : Regexp) (s : String) : Bool :=
  if rx.anchored then rx.re.acceptsSomePrefix s.data
  else rx.re.searchAnywhere s.data

/-- Embeds `strings.Trim(s, " ")`: remove leading and trailing spaces. -/
def trimSpaces (s : String) : String :=
  String.mk (((s.data.dropWhile (· = ' ')).reverse.dropWhile (· = ' ')).reverse)

/-- Embeds `createRegexpFromStrings`: trim each pattern, skip the ones that
become empty, abort on the first compile error, keep input order. -/
def createRegexpFromStrings (filePatterns : List String) :
    Except String (List Regexp) :=
  match filePatterns with
  | [] => .ok []
  | patternStr :: rest =>
    let pattern := trimSpaces patternStr
    if pattern ≠ "" then
      match regexpCompile pattern with
      | .error e => .error ("Could not compile regexp: " ++ e)
      | .ok r =>
        match createRegexpFromStrings rest with
        | .error e => .error e
        | .ok rs => .ok (r :: rs)
    else createRegexpFromStrings rest

/-- Embeds `anyRegexMatch`: true if any compiled pattern matches. -/
def anyRegexMatch (value : String) (regexList : List Regexp) : Bool :=
  match regexList with
  | [] => false
  | r :: rest => if r.MatchString value then true else anyRegexMatch value rest

/-- Embeds `filterIgnoredTasks`: keep, in order, the task names matched by
no ignore pattern. -/
def filterIgnoredTasks (taskList : List String) (tasksToIgnore : List Regexp) :
    List String :=
  match taskList with
  | [] => []
  | task :: rest =>
    if anyRegexMatch task tasksToIgnore then filterIgnoredTasks rest tasksToIgnore
    else task :: filterIgnoredTasks rest tasksToIgnore

/-! ### Stats units, the daily rollup, and the generator dispatchers -/

/-- The `stats.StatsToUpdate` record (declared in `model/stats`, used here
through its fields `ProjectId`, `Requester`, `Hour`, `Day`, `Tasks`). -/
structure StatsToUpdate where
  ProjectId : String
  Requester : String
  Hour : Int
  Day : Int
  Tasks : List String
deriving Repr, DecidableEq

/-- Ordered association-list stand-in for a Go map: lookup by key. -/
def getAssoc {α β : Type} [DecidableEq α] : List (α × β) → α → Option β
  | [], _ => none
  | (k', v') :: rest, k => if k' = k then some v' else getAssoc rest k

/-- Ordered association-list stand-in for a Go map: set a key, keeping the
position of an existing key and appending a new key at the end (a fixed,
deterministic stand-in for Go's unspecified map iteration order). -/
def setAssoc {α β : Type} [DecidableEq α] : List (α × β) → α → β → List (α × β)
  | [], k, v => [(k, v)]
  | (k', v') :: rest, k, v =>
    if k' = k then (k', v) :: rest else (k', v') :: setAssoc rest k v

/-- `dailyStatsRollup`: day ↦ requester ↦ concatenated task names. -/
abbrev DailyStatsRollup := List (Int × List (String × List String))

/-- One step of the rollup loop body: `rollup[stat.Day][stat.Requester]`
is set to `stat.Tasks` when absent, else extended by `append`. -/
def dailyRollupStep (rollup : DailyStatsRollup) (stat : StatsToUpdate) :
    DailyStatsRollup :=
  let inner := (getAssoc rollup stat.Day).getD []
  let newVal :=
    match getAssoc inner stat.Requester with
    | none => stat.Tasks
    | some old => old ++ stat.Tasks
  setAssoc rollup stat.Day (setAssoc inner stat.Requester newVal)

/-- Embeds `buildDailyStatsRollup`: fold all hourly units into daily
buckets keyed by `(Day, Requester)`. -/
def buildDailyStatsRollup (hourlyStats : List StatsToUpdate) : DailyStatsRollup :=
  hourlyStats.foldl dailyRollupStep []

/-- The task list stored in the rollup for one `(day, requester)` key
(empty when the key is absent). -/
def rollupTasks (rollup : DailyStatsRollup) (day : Int) (requester : String) :
    List String :=
  (getAssoc ((getAssoc rollup day).getD []) requester).getD []

/-- A generator function (`generateStatsFn`); external side effects are
abstracted to the returned error: `none` is success. -/
abbrev GenerateStatsFn := String → String → Int → List String → Int → Option String

/-- Which dispatch stage a generator call belongs to. -/
inductive Stage : Type
  | hourly : Stage
  | daily : Stage
deriving Repr, DecidableEq

/-- One recorded generator invocation: its arguments and its outcome. -/
structure GenCall where
  stage : Stage
  displayName : String
  projectId : String
  requester : String
  period : Int
  tasks : List String
  jobDate : Int
  result : Option String
deriving Repr, DecidableEq

/-- `cacheHistoricalJobContext`. -/
structure CacheHistoricalJobContext where
  ProjectId : String
  JobTime : Int
  TasksToIgnore : List Regexp

/-- Embeds `iteratorOverHourlyStats`: per unit, filter the task list, skip
the unit when nothing is left, call the generator, and return its wrapped
error at the first failure.  The returned list is the trace of generator
invocations in order. -/
def iteratorOverHourlyStats (c : CacheHistoricalJobContext)
    (stats : List StatsToUpdate) (fn : GenerateStatsFn) (displayName : String) :
    List GenCall × Option String :=
  match stats with
  | [] => ([], none)
  | stat :: rest =>
    let taskList := filterIgnoredTasks stat.Tasks c.TasksToIgnore
    if taskList.length > 0 then
      let res := fn stat.ProjectId stat.Requester stat.Hour taskList c.JobTime
      let call : GenCall :=
        ⟨.hourly, displayName, stat.ProjectId, stat.Requester, stat.Hour,
          taskList, c.JobTime, res⟩
      match res with
      | some e => ([call], some ("Could not sync hourly stats: " ++ e))
      | none =>
        let p := iteratorOverHourlyStats c rest fn displayName
        (call :: p.1, p.2)
    else iteratorOverHourlyStats c rest fn displayName

/-- The inner loop of `iteratorOverDailyStats`, over the requesters of one
day bucket. -/
def iteratorOverDailyRequesters (c : CacheHistoricalJobContext) (day : Int)
    (stats : List (String × List String)) (fn : GenerateStatsFn)
    (displayName : String) : List GenCall × Option String :=
  match stats with
  | [] => ([], none)
  | (requester, tasks) :: rest =>
    let taskList := filterIgnoredTasks tasks c.TasksToIgnore
    if taskList.length > 0 then
      let res := fn c.ProjectId requester day taskList c.JobTime
      let call : GenCall :=
        ⟨.daily, displayName, c.ProjectId, requester, day, taskList,
          c.JobTime, res⟩
      match res with
      | some e => ([call], some ("Could not sync daily stats: " ++ e))
      | none =>
        let p := iteratorOverDailyRequesters c day rest fn displayName
        (call :: p.1, p.2)
    else iteratorOverDailyRequesters c day rest fn displayName

/-- Embeds `iteratorOverDailyStats`: per `(day, requester)` bucket, filter
the concatenated tasks, skip empty buckets, call the generator, abort on
the first failure. -/
def iteratorOverDailyStats (c : CacheHistoricalJobContext)
    (dailyStats : DailyStatsRollup) (fn : GenerateStatsFn)
    (displayName : String) : List GenCall × Option String :=
  match dailyStats with
  | [] => ([], none)
  | (day, stats) :: rest =>
    let p := iteratorOverDailyRequesters c day stats fn displayName
    match p.2 with
    | some e => (p.1, some e)
    | none =>
      let q := iteratorOverDailyStats c rest fn displayName
      (p.1 ++ q.1, q.2)

/-- `generateFunctions`: the two name ↦ generator stage tables, as ordered
association lists. -/
structure GenerateFunctions where
  HourlyFns : List (String × GenerateStatsFn)
  DailyFns : List (String × GenerateStatsFn)

/-- The first loop of `updateHourlyAndDailyStats`: each hourly generator
over all units, aborting at the first error. -/
def runHourlyFns (c : CacheHistoricalJobContext) (stats : List StatsToUpdate) :
    List (String × GenerateStatsFn) → List GenCall × Option String
  | [] => ([], none)
  | (name, fn) :: rest =>
    let p := iteratorOverHourlyStats c stats fn name
    match p.2 with
    | some e => (p.1, some e)
    | none =>
      let q := runHourlyFns c stats rest
      (p.1 ++ q.1, q.2)

/-- The second loop of `updateHourlyAndDailyStats`: each daily generator
over the rollup, aborting at the first error. -/
def runDailyFns (c : CacheHistoricalJobContext) (dailyStats : DailyStatsRollup) :
    List (String × GenerateStatsFn) → List GenCall × Option String
  | [] => ([], none)
  | (name, fn) :: rest =>
    let p := iteratorOverDailyStats c dailyStats fn name
    match p.2 with
    | some e => (p.1, some e)
    | none =>
      let q := runDailyFns c dailyStats rest
      (p.1 ++ q.1, q.2)

/-- Embeds `updateHourlyAndDailyStats`: hourly generators first, then the
rollup is built and the daily generators run; any error aborts. -/
def updateHourlyAndDailyStats (c : CacheHistoricalJobContext)
    (statsToUpdate : List StatsToUpdate) (generateFns : GenerateFunctions) :
    List GenCall × Option String :=
  let p := runHourlyFns c statsToUpdate generateFns.HourlyFns
  match p.2 with
  | some e => (p.1, some e)
  | none =>
    let dailyStats := buildDailyStatsRollup statsToUpdate
    let q := runDailyFns c dailyStats generateFns.DailyFns
    (p.1 ++ q.1, q.2)

/-! ### The orchestrating job (`cacheHistoricalTestDataJob.Run`) -/

/-- The `stats.StatsStatus` record, of which `Run` uses
`ProcessedTasksUntil`. -/
structure StatsStatus where
  ProcessedTasksUntil : Int
deriving Repr, DecidableEq

/-- Embeds `getTasksToIgnore`: fetch the project ref's
`FilesIgnoredFromCache` patterns and compile them. -/
def getTasksToIgnore (findProjectRef : Except String (List String)) :
    Except String (List Regexp) :=
  match findProjectRef with
  | .error e => .error ("Could not get project ref: " ++ e)
  | .ok filePatternsStr => createRegexpFromStrings filePatternsStr

/-- The external collaborators and ambient values of one `Run` invocation.
`jobTime` is the `time.Now()` captured as `JobTime`; `syncNow` is the
separate `time.Now()` read inside `findTargetTimeForSync`.  The generator
tables are inputs because the concrete `stats.Generate*` functions live
outside this file's scope. -/
structure RunInput where
  projectId : String
  getStatsStatus : Except String StatsStatus
  projectRefPatterns : Except String (List String)
  jobTime : Int
  syncNow : Int
  findStatsToUpdate : Int → Int → Except String (List StatsToUpdate)
  generateFns : GenerateFunctions
  updateStatsStatus : Int → Int → Option String

/-- What one `Run` invocation did: the generator-call trace, the
`UpdateStatsStatus` checkpoint call if it was made (with its
`(runTimestamp, processedUntil)` arguments), and the error recorded by
`AddError`, if any. -/
structure RunResult where
  trace : List GenCall
  checkpointCall : Option (Int × Int)
  err : Option String
deriving Repr, DecidableEq

/-- Embeds `cacheHistoricalTestDataJob.Run`: load the checkpoint, compile
the ignore patterns, plan the window, fetch the units, dispatch the
generators, and only on full success call `UpdateStatsStatus` with the
window's upper bound. -/
def run (j : RunInput) : RunResult :=
  match j.getStatsStatus with
  | .error e => ⟨[], none, some ("error retrieving last sync date: " ++ e)⟩
  | .ok statsStatus =>
    match getTasksToIgnore j.projectRefPatterns with
    | .error e => ⟨[], none, some ("error retrieving project settings: " ++ e)⟩
    | .ok tasksToIgnore =>
      let jobContext : CacheHistoricalJobContext :=
        ⟨j.projectId, j.jobTime, tasksToIgnore⟩
      let syncFromTime := statsStatus.ProcessedTasksUntil
      let syncToTime := findTargetTimeForSync syncFromTime j.syncNow
      match j.findStatsToUpdate syncFromTime syncToTime with
      | .error e => ⟨[], none, some ("error finding tasks to update: " ++ e)⟩
      | .ok statsToUpdate =>
        let p := updateHourlyAndDailyStats jobContext statsToUpdate j.generateFns
        match p.2 with
        | some e =>
          ⟨p.1, none, some ("error generating hourly test stats: " ++ e)⟩
        | none =>
          match j.updateStatsStatus j.jobTime syncToTime with
          | some e =>
            ⟨p.1, some (j.jobTime, syncToTime),
              some ("error updating last synced date: " ++ e)⟩
          | none => ⟨p.1, some (j.jobTime, syncToTime), none⟩

/-! ### The manifest load handler (`service/api_plugin_manifest.go`) -/

/-- A project module as the handler consumes it: its name, the owner and
repository that `GetRepoOwnerAndName` yields, and its branch. -/
structure ProjectModule where
  Name : String
  Owner : String
  Repo : String
  Branch : String
deriving Repr, DecidableEq

/-- A `manifest.Module` value as built by the handler. -/
structure ManifestModule where
  Branch : String
  Revision : String
  Repo : String
  Owner : String
  URL : String
deriving Repr, DecidableEq

/-- A `manifest.Manifest` document. -/
structure Manifest where
  Id : String
  Revision : String
  ProjectName : String
  Branch : String
  Modules : List (String × ManifestModule)
deriving Repr, DecidableEq

/-- The project ref fields the handler reads. -/
structure ProjectRef where
  Identifier : String
  Branch : String
deriving Repr, DecidableEq

/-- The handler's response: a JSON-written manifest or a logged error with
its HTTP status. -/
inductive ManifestResponse : Type
  | json : Manifest → ManifestResponse
  | loggedError : Nat → String → ManifestResponse
deriving Repr, DecidableEq

/-- The external collaborators and request values of one handler call.
`getBranchEvent token owner repo branch` returns the branch head's
`(commit SHA, commit URL)`. -/
structure ManifestHandlerInput where
  taskProject : String
  taskVersion : String
  taskRevision : String
  findProjectRef : Except String ProjectRef
  findProject : Except String (Option (List ProjectModule))
  findManifest : Except String (Option Manifest)
  getGithubToken : Except String String
  getBranchEvent : String → String → String → String → Except String (String × String)
  tryInsert : Manifest → Except String Bool
  findManifestAgain : Except String (Option Manifest)

/-- What one handler call did: the response, the upstream branch-head
queries issued in order (owner, repo, branch), and the manifest passed to
`TryInsert` when the insert was attempted. -/
structure ManifestResult where
  response : ManifestResponse
  upstreamCalls : List (String × String × String)
  insertAttempted : Option Manifest
deriving Repr, DecidableEq

/-- The per-module loop of the handler: fetch the token, query the branch
head, record the module; the first failure aborts with a 500.  Returns the
built module map, the upstream queries made, and the error if any. -/
def manifestModulesLoop (inp : ManifestHandlerInput) :
    List ProjectModule → List (String × ManifestModule) →
    List (String × ManifestModule) × List (String × String × String) ×
      Option (Nat × String)
  | [], acc => (acc, [], none)
  | m :: rest, acc =>
    match inp.getGithubToken with
    | .error e => (acc, [], some (500, "error getting github token: " ++ e))
    | .ok token =>
      match inp.getBranchEvent token m.Owner m.Repo m.Branch with
      | .error e =>
        (acc, [(m.Owner, m.Repo, m.Branch)],
          some (500, "problem retrieving getting git branch for module " ++ m.Name ++ ": " ++ e))
      | .ok shaUrl =>
        let acc2 := setAssoc acc m.Name
          ⟨m.Branch, shaUrl.1, m.Repo, m.Owner, shaUrl.2⟩
        let p := manifestModulesLoop inp rest acc2
        (p.1, (m.Owner, m.Repo, m.Branch) :: p.2.1, p.2.2)

/-- Embeds `manifestLoadHandler`: return an existing manifest verbatim;
otherwise build a new one (one branch-head query per module), try to
insert it, and on a duplicate-key result re-read and return the persisted
manifest. -/
def manifestLoadHandler (inp : ManifestHandlerInput) : ManifestResult :=
  match inp.findProjectRef with
  | .error e =>
    ⟨.loggedError 400 ("projectRef not found for project " ++ inp.taskProject ++ ": " ++ e), [], none⟩
  | .ok projectRef =>
    match inp.findProject with
    | .error e =>
      ⟨.loggedError 400 ("project not found for ProjectRef " ++ projectRef.Identifier ++ ": " ++ e), [], none⟩
    | .ok none =>
      ⟨.loggedError 400 ("empty project not found for ProjectRef " ++ projectRef.Identifier), [], none⟩
    | .ok (some projectModules) =>
      match inp.findManifest with
      | .error e =>
        ⟨.loggedError 400 ("error retrieving manifest with version id " ++ inp.taskVersion ++ ": " ++ e), [], none⟩
      | .ok (some currentManifest) => ⟨.json currentManifest, [], none⟩
      | .ok none =>
        if inp.taskVersion = "" then
          ⟨.loggedError 400 ("found empty version when retrieving manifest for " ++ projectRef.Identifier), [], none⟩
        else
          let p := manifestModulesLoop inp projectModules []
          match p.2.2 with
          | some st => ⟨.loggedError st.1 st.2, p.2.1, none⟩
          | none =>
            let newManifest : Manifest :=
              ⟨inp.taskVersion, inp.taskRevision, inp.taskProject,
                projectRef.Branch, p.1⟩
            match inp.tryInsert newManifest with
            | .error e =>
              ⟨.loggedError 500 ("problem inserting manifest for project " ++ newManifest.ProjectName ++ ": " ++ e),
                p.2.1, some newManifest⟩
            | .ok duplicate =>
              if duplicate then
                match inp.findManifestAgain with
                | .error e =>
                  ⟨.loggedError 400 ("problem getting latest manifest for project " ++ newManifest.ProjectName ++ ": " ++ e),
                    p.2.1, some newManifest⟩
                | .ok (some m) => ⟨.json m, p.2.1, some newManifest⟩
                | .ok none => ⟨.json newManifest, p.2.1, some newManifest⟩
              else ⟨.json newManifest, p.2.1, some newManifest⟩

/-! ### Spec-side definitions (for refinement comparisons) and sample
inputs used by the witness theorems -/

/-- Spec-side `RollupBuilder.BuildDaily` value at one key: the
concatenation, in input order and without deduplication, of the task
lists of all units assigned to the given day and requester. -/
def specDailyBucket (units : List StatsToUpdate) (d : Int) (r : String) :
    List String :=
  match units with
  | [] => []
  | u :: rest =>
    (if u.Day = d ∧ u.Requester = r then u.Tasks else []) ++
      specDailyBucket rest d r

/-- Spec-side pre-rollup filtering: every hourly unit's task list filtered
through the ignore matcher before any folding. -/
def specFilteredUnits (units : List StatsToUpdate) (rs : List Regexp) :
    List StatsToUpdate :=
  units.map (fun u => { u with Tasks := filterIgnoredTasks u.Tasks rs })

/-- Fail-fast shape of a dispatch outcome: on success every recorded call
succeeded; on failure the trace is successful calls followed by exactly
one failing call (nothing runs after the first error). -/
def FailFast (p : List GenCall × Option String) : Prop :=
  (p.2 = none → ∀ c ∈ p.1, c.result = none) ∧
  (p.2 ≠ none →
    ∃ tr cl, p.1 = tr ++ [cl] ∧ (∀ c ∈ tr, c.result = none) ∧ cl.result ≠ none)

/-- Well-formedness of a rollup: no duplicate day keys, and no duplicate
requester keys inside any day bucket (maps have unique keys). -/
def RollupWF (rollup : DailyStatsRollup) : Prop :=
  (rollup.map Prod.fst).Nodup ∧ ∀ p ∈ rollup, (p.2.map Prod.fst).Nodup

/-- A fully successful sample run: empty pattern list, no units. -/
def sampleRunInput : RunInput where
  projectId := "p"
  getStatsStatus := .ok ⟨0⟩
  projectRefPatterns := .ok []
  jobTime := 5
  syncNow := 3
  findStatsToUpdate := fun _ _ => .ok []
  generateFns := ⟨[], []⟩
  updateStatsStatus := fun _ _ => none

/-- A successful sample run whose checkpoint (10) is ahead of the clock
(3): the window target moves backwards. -/
def backwardsClockRunInput : RunInput where
  projectId := "p"
  getStatsStatus := .ok ⟨10⟩
  projectRefPatterns := .ok []
  jobTime := 3
  syncNow := 3
  findStatsToUpdate := fun _ _ => .ok []
  generateFns := ⟨[], []⟩
  updateStatsStatus := fun _ _ => none

/-- Sample context with no ignore patterns. -/
def sampleCtx : CacheHistoricalJobContext := ⟨"p", 0, []⟩

/-- Sample hourly units: two units, same day and requester. -/
def sampleStats : List StatsToUpdate :=
  [⟨"p", "r1", 1, 10, ["a"]⟩, ⟨"p", "r1", 2, 10, ["a", "b"]⟩]

/-- Sample generator tables for the fail-fast scenario of spec §8: three
hourly generators of which the second fails, and one daily generator. -/
def failFastFns : GenerateFunctions where
  HourlyFns :=
    [("g1", fun _ _ _ _ _ => none),
     ("g2", fun _ _ _ _ _ => some "boom"),
     ("g3", fun _ _ _ _ _ => none)]
  DailyFns := [("d1", fun _ _ _ _ _ => none)]

/-- Sample generator tables where every generator succeeds. -/
def allOkFns : GenerateFunctions where
  HourlyFns := [("test", fun _ _ _ _ _ => none)]
  DailyFns := [("test", fun _ _ _ _ _ => none), ("task", fun _ _ _ _ _ => none)]

/-- The compiled `^gen_` ignore matcher (for concrete scenarios). -/
def sampleIgnoreRegexps : List Regexp :=
  (createRegexpFromStrings ["^gen_"]).toOption.getD []

/-- One hourly unit mixing an ignored and a kept task name. -/
def sampleMixedStats : List StatsToUpdate :=
  [⟨"p", "r1", 1, 10, ["gen_x", "keep_y"]⟩]

/-- A run whose project configuration holds the invalid pattern `"(["`. -/
def badPatternRunInput : RunInput where
  projectId := "p"
  getStatsStatus := .ok ⟨0⟩
  projectRefPatterns := .ok ["(["]
  jobTime := 5
  syncNow := 3
  findStatsToUpdate := fun _ _ => .ok []
  generateFns := ⟨[], []⟩
  updateStatsStatus := fun _ _ => none

/-- Sample manifest-handler input whose manifest already exists. -/
def manifestFoundInput : ManifestHandlerInput where
  taskProject := "proj"
  taskVersion := "v1"
  taskRevision := "abc"
  findProjectRef := .ok ⟨"proj", "main"⟩
  findProject := .ok (some [⟨"mod1", "own", "repo", "dev"⟩])
  findManifest := .ok (some ⟨"v1", "abc", "proj", "main", []⟩)
  getGithubToken := .ok "tok"
  getBranchEvent := fun _ _ _ _ => .ok ("sha1", "url1")
  tryInsert := fun _ => .ok false
  findManifestAgain := .ok none

/-- Sample manifest-handler input with no existing manifest whose insert
reports a duplicate, so the handler re-reads the persisted manifest. -/
def manifestRaceInput : ManifestHandlerInput where
  taskProject := "proj"
  taskVersion := "v1"
  taskRevision := "abc"
  findProjectRef := .ok ⟨"proj", "main"⟩
  findProject := .ok (some [⟨"mod1", "own", "repo", "dev"⟩])
  findManifest := .ok none
  getGithubToken := .ok "tok"
  getBranchEvent := fun _ _ _ _ => .ok ("sha1", "url1")
  tryInsert := fun _ => .ok true
  findManifestAgain := .ok (some ⟨"v1", "zzz", "proj", "main", []⟩)

end Evergreen

namespace Evergreen

/-- spec-style restatement: `to = min(now, lastProcessed + maxWindow)`. -/
theorem findTargetTimeForSync_eq_min (last now : Int) :
    findTargetTimeForSync last now = min now (last + maxSyncDuration) := by
  simp only [findTargetTimeForSync]
  split <;> omega

/-! ### Association-list lemmas -/

theorem getAssoc_setAssoc_self {α β : Type} [DecidableEq α]
    (m : List (α × β)) (k : α) (v : β) :
    getAssoc (setAssoc m k v) k = some v := by
  induction m with
  | nil => simp [setAssoc, getAssoc]
  | cons hd tl ih =>
    obtain ⟨k', v'⟩ := hd
    by_cases h : k' = k <;> simp [setAssoc, getAssoc, h, ih]

theorem getAssoc_setAssoc_ne {α β : Type} [DecidableEq α]
    (m : List (α × β)) (k k' : α) (v : β) (h : k' ≠ k) :
    getAssoc (setAssoc m k v) k' = getAssoc m k' := by
  have hkk : ¬ k = k' := fun h' => h h'.symm
  induction m with
  | nil => simp [setAssoc, getAssoc, hkk]
  | cons hd tl ih =>
    obtain ⟨k0, v0⟩ := hd
    by_cases h0 : k0 = k
    · subst h0
      simp [setAssoc, getAssoc, hkk]
    · simp [setAssoc, getAssoc, h0, ih]

theorem getAssoc_mem {α β : Type} [DecidableEq α]
    (m : List (α × β)) (k : α) (v : β) (h : getAssoc m k = some v) :
    (k, v) ∈ m := by
  induction m with
  | nil => simp [getAssoc] at h
  | cons hd tl ih =>
    obtain ⟨k0, v0⟩ := hd
    by_cases h0 : k0 = k
    · subst h0
      simp [getAssoc] at h
      simp [h]
    · simp [getAssoc, h0] at h
      simp [ih h]

theorem mem_setAssoc {α β : Type} [DecidableEq α]
    (m : List (α × β)) (k k' : α) (v v' : β)
    (h : (k', v') ∈ setAssoc m k v) :
    (k' = k ∧ v' = v) ∨ (k', v') ∈ m := by
  induction m with
  | nil =>
    simp [setAssoc] at h
    exact Or.inl h
  | cons hd tl ih =>
    obtain ⟨k0, v0⟩ := hd
    by_cases h0 : k0 = k
    · subst h0
      simp [setAssoc] at h
      rcases h with ⟨h1, h2⟩ | h
      · exact Or.inl ⟨h1, h2⟩
      · exact Or.inr (List.mem_cons_of_mem _ h)
    · simp [setAssoc, h0] at h
      rcases h with ⟨h1, h2⟩ | h
      · subst h1; subst h2; exact Or.inr (List.mem_cons_self _ _)
      · rcases ih h with h' | h'
        · exact Or.inl h'
        · exact Or.inr (List.mem_cons_of_mem _ h')

theorem keys_setAssoc {α β : Type} [DecidableEq α]
    (m : List (α × β)) (k : α) (v : β) :
    (setAssoc m k v).map Prod.fst = m.map Prod.fst ∨
    (setAssoc m k v).map Prod.fst = m.map Prod.fst ++ [k] := by
  induction m with
  | nil => simp [setAssoc]
  | cons hd tl ih =>
    obtain ⟨k0, v0⟩ := hd
    by_cases h0 : k0 = k
    · subst h0; simp [setAssoc]
    · rcases ih with h | h <;> simp [setAssoc, h0, h]

theorem nodupKeys_setAssoc {α β : Type} [DecidableEq α]
    (m : List (α × β)) (k : α) (v : β)
    (h : (m.map Prod.fst).Nodup) :
    ((setAssoc m k v).map Prod.fst).Nodup := by
  induction m with
  | nil => simp [setAssoc]
  | cons hd tl ih =>
    obtain ⟨k0, v0⟩ := hd
    rw [List.map_cons, List.nodup_cons] at h
    by_cases h0 : k0 = k
    · subst h0
      have step : setAssoc ((k0, v0) :: tl) k0 v = (k0, v) :: tl := by
        simp [setAssoc]
      rw [step, List.map_cons, List.nodup_cons]
      exact ⟨h.1, h.2⟩
    · have step : setAssoc ((k0, v0) :: tl) k v = (k0, v0) :: setAssoc tl k v := by
        simp [setAssoc, h0]
      rw [step, List.map_cons, List.nodup_cons]
      refine ⟨?_, ih h.2⟩
      rcases keys_setAssoc tl k v with hk | hk
      · rw [hk]; exact h.1
      · rw [hk]
        intro hmem
        rcases List.mem_append.mp hmem with hmem | hmem
        · exact h.1 hmem
        · rw [List.mem_singleton] at hmem
          exact h0 hmem

theorem getAssoc_of_mem_nodup {α β : Type} [DecidableEq α]
    (m : List (α × β)) (k : α) (v : β)
    (hnd : (m.map Prod.fst).Nodup) (h : (k, v) ∈ m) :
    getAssoc m k = some v := by
  induction m with
  | nil => simp at h
  | cons hd tl ih =>
    obtain ⟨k0, v0⟩ := hd
    rw [List.map_cons, List.nodup_cons] at hnd
    rcases List.mem_cons.mp h with h | h
    · rw [Prod.ext_iff] at h
      obtain ⟨h1, h2⟩ := h
      simp only at h1 h2
      subst h1; subst h2
      simp [getAssoc]
    · have hk : ¬ k0 = k := by
        intro hc
        apply hnd.1
        have hmm := List.mem_map_of_mem Prod.fst h
        simpa [hc] using hmm
      simp [getAssoc, hk, ih hnd.2 h]

/-! ### Daily rollup characterization -/

theorem rollupTasks_dailyRollupStep (acc : DailyStatsRollup) (u : StatsToUpdate)
    (d : Int) (r : String) :
    rollupTasks (dailyRollupStep acc u) d r =
      rollupTasks acc d r ++
        (if u.Day = d ∧ u.Requester = r then u.Tasks else []) := by
  by_cases hd : u.Day = d
  · subst hd
    by_cases hr : u.Requester = r
    · subst hr
      cases hcur : getAssoc ((getAssoc acc u.Day).getD []) u.Requester with
      | none =>
        simp [dailyRollupStep, rollupTasks, getAssoc_setAssoc_self, hcur]
      | some old =>
        simp [dailyRollupStep, rollupTasks, getAssoc_setAssoc_self, hcur]
    · have hr' : r ≠ u.Requester := fun h => hr h.symm
      simp [dailyRollupStep, rollupTasks, getAssoc_setAssoc_self,
        getAssoc_setAssoc_ne, hr', hr]
  · have hd' : d ≠ u.Day := fun h => hd h.symm
    simp [dailyRollupStep, rollupTasks, getAssoc_setAssoc_ne, hd', hd]

theorem rollupTasks_foldl (units : List StatsToUpdate) :
    ∀ (acc : DailyStatsRollup) (d : Int) (r : String),
      rollupTasks (units.foldl dailyRollupStep acc) d r =
        rollupTasks acc d r ++ specDailyBucket units d r := by
  induction units with
  | nil => intro acc d r; simp [specDailyBucket]
  | cons u rest ih =>
    intro acc d r
    rw [List.foldl_cons, ih, rollupTasks_dailyRollupStep]
    simp only [specDailyBucket]
    rw [List.append_assoc]

theorem rollupTasks_buildDailyStatsRollup (units : List StatsToUpdate)
    (d : Int) (r : String) :
    rollupTasks (buildDailyStatsRollup units) d r = specDailyBucket units d r := by
  have h := rollupTasks_foldl units [] d r
  simpa [buildDailyStatsRollup, rollupTasks, getAssoc] using h

/-- **C6**: the daily rollup groups by day and requester with
order-preserving, non-deduplicating concatenation: the bucket at a
`(day, requester)` key is the concatenation, in input order and with
duplicates kept, of the task lists of the units assigned to that day and
requester; two same-day same-requester units with tasks `["a"]` and
`["a","b"]` fold to `["a","a","b"]`. -/
theorem dailyRollup_is_ordered_concatenation :
    (∀ (units : List StatsToUpdate) (d : Int) (r : String),
      rollupTasks (buildDailyStatsRollup units) d r = specDailyBucket units d r) ∧
    rollupTasks (buildDailyStatsRollup sampleStats) 10 "r1" = ["a", "a", "b"] :=
  ⟨rollupTasks_buildDailyStatsRollup, by decide⟩

/-- **C5**: the window planner is pure with
`to = min(now, lastProcessed + maxWindow)` and a one-week max window;
`lastProcessed = D0, now = D0+2d` gives `to = now`, and
`lastProcessed = D0, now = D0+20d` gives `to = D0+7d`. -/
theorem windowPlanner_min_with_examples :
    maxSyncDuration = 7 * timeDay ∧
    (∀ last now : Int,
      findTargetTimeForSync last now = min now (last + maxSyncDuration)) ∧
    (∀ d0 : Int, findTargetTimeForSync d0 (d0 + 2 * timeDay) = d0 + 2 * timeDay) ∧
    (∀ d0 : Int, findTargetTimeForSync d0 (d0 + 20 * timeDay) = d0 + 7 * timeDay) := by
  refine ⟨by norm_num [maxSyncDuration, timeDay, timeHour],
    findTargetTimeForSync_eq_min, ?_, ?_⟩ <;> intro d0 <;>
    rw [findTargetTimeForSync_eq_min] <;>
    simp only [maxSyncDuration, timeDay, timeHour] <;> omega

/-! ### The run's checkpoint call -/

theorem run_checkpointCall (j : RunInput) :
    (run j).checkpointCall =
      (match j.getStatsStatus with
      | .error _ => none
      | .ok ss =>
        match getTasksToIgnore j.projectRefPatterns with
        | .error _ => none
        | .ok rxs =>
          match j.findStatsToUpdate ss.ProcessedTasksUntil
              (findTargetTimeForSync ss.ProcessedTasksUntil j.syncNow) with
          | .error _ => none
          | .ok units =>
            match (updateHourlyAndDailyStats ⟨j.projectId, j.jobTime, rxs⟩
                units j.generateFns).2 with
            | some _ => none
            | none =>
              some (j.jobTime,
                findTargetTimeForSync ss.ProcessedTasksUntil j.syncNow)) := by
  simp only [run]
  split
  · rfl
  · split
    · rfl
    · split
      · rfl
      · split
        · rfl
        · split
          · rfl
          · rfl

/-- **C3 counterexample**: a successful run whose checkpoint was ahead of
the clock (checkpoint 10, now 3) completes with no error and moves the
checkpoint *down* to 3, refuting "the new checkpoint value is greater
than or equal to the previous one for all values of the current time". -/
theorem processedUntil_can_decrease :
    (run backwardsClockRunInput).err = none ∧
    backwardsClockRunInput.getStatsStatus = .ok ⟨10⟩ ∧
    (run backwardsClockRunInput).checkpointCall = some (3, 3) ∧
    (3 : Int) < 10 := by
  refine ⟨by decide, rfl, by decide, by norm_num⟩

/-- **C3 (amended)**: provided the current time is not earlier than the
previous checkpoint (`lastProcessed ≤ now`), every run that updates the
checkpoint writes a value that is at least `lastProcessed`. -/
theorem processedUntil_nondecreasing_amended (j : RunInput)
    (last t pu : Int)
    (hss : j.getStatsStatus = .ok ⟨last⟩)
    (hclock : last ≤ j.syncNow)
    (hcp : (run j).checkpointCall = some (t, pu)) :
    last ≤ pu := by
  rw [run_checkpointCall j, hss] at hcp
  simp only at hcp
  cases hig : getTasksToIgnore j.projectRefPatterns with
  | error e => rw [hig] at hcp; simp at hcp
  | ok rxs =>
    rw [hig] at hcp
    simp only at hcp
    cases hfetch : j.findStatsToUpdate last (findTargetTimeForSync last j.syncNow) with
    | error e => rw [hfetch] at hcp; simp at hcp
    | ok units =>
      rw [hfetch] at hcp
      simp only at hcp
      cases hup : (updateHourlyAndDailyStats ⟨j.projectId, j.jobTime, rxs⟩
          units j.generateFns).2 with
      | some e => rw [hup] at hcp; simp at hcp
      | none =>
        rw [hup] at hcp
        simp only [Option.some.injEq, Prod.mk.injEq] at hcp
        have hpu : pu = findTargetTimeForSync last j.syncNow := hcp.2.symm
        rw [hpu, findTargetTimeForSync_eq_min]
        have : (0 : Int) ≤ maxSyncDuration := by
          norm_num [maxSyncDuration, timeHour]
        omega

/-! ### Filtering lemmas -/

theorem filterIgnoredTasks_eq_filter (l : List String) (rs : List Regexp) :
    filterIgnoredTasks l rs = l.filter (fun t => !anyRegexMatch t rs) := by
  induction l with
  | nil => rfl
  | cons t rest ih =>
    by_cases h : anyRegexMatch t rs <;>
      simp [filterIgnoredTasks, List.filter_cons, h, ih]

theorem filterIgnoredTasks_append (xs ys : List String) (rs : List Regexp) :
    filterIgnoredTasks (xs ++ ys) rs =
      filterIgnoredTasks xs rs ++ filterIgnoredTasks ys rs := by
  induction xs with
  | nil => rfl
  | cons t rest ih =>
    by_cases h : anyRegexMatch t rs <;> simp [filterIgnoredTasks, h, ih]

theorem not_matched_of_mem_filterIgnoredTasks (t : String) (l : List String)
    (rs : List Regexp) (h : t ∈ filterIgnoredTasks l rs) :
    anyRegexMatch t rs = false := by
  rw [filterIgnoredTasks_eq_filter] at h
  have hmf := List.of_mem_filter h
  simpa using hmf

theorem filter_specDailyBucket (units : List StatsToUpdate) (rs : List Regexp)
    (d : Int) (r : String) :
    filterIgnoredTasks (specDailyBucket units d r) rs =
      specDailyBucket (specFilteredUnits units rs) d r := by
  induction units with
  | nil => rfl
  | cons u rest ih =>
    simp only [specDailyBucket, specFilteredUnits, List.map_cons]
    rw [filterIgnoredTasks_append, ih]
    congr 1
    by_cases h : u.Day = d ∧ u.Requester = r
    · simp [h]
    · simp [h, filterIgnoredTasks]

theorem filter_rollupTasks (units : List StatsToUpdate) (rs : List Regexp)
    (d : Int) (r : String) :
    filterIgnoredTasks (rollupTasks (buildDailyStatsRollup units) d r) rs =
      rollupTasks (buildDailyStatsRollup (specFilteredUnits units rs)) d r := by
  rw [rollupTasks_buildDailyStatsRollup, rollupTasks_buildDailyStatsRollup,
    filter_specDailyBucket]

/-! ### Rollup well-formedness -/

theorem rollupWF_nil : RollupWF [] := by
  constructor
  · simp
  · intro p hp; simp at hp

theorem rollupWF_step (acc : DailyStatsRollup) (u : StatsToUpdate)
    (h : RollupWF acc) : RollupWF (dailyRollupStep acc u) := by
  obtain ⟨h1, h2⟩ := h
  have hinner : (((getAssoc acc u.Day).getD []).map Prod.fst).Nodup := by
    cases hga : getAssoc acc u.Day with
    | none => simp
    | some i =>
      have hm := getAssoc_mem acc u.Day i hga
      simpa using h2 _ hm
  constructor
  · simp only [dailyRollupStep]
    exact nodupKeys_setAssoc _ _ _ h1
  · intro p hp
    simp only [dailyRollupStep] at hp
    obtain ⟨k', v'⟩ := p
    rcases mem_setAssoc _ _ _ _ _ hp with ⟨hk, hv⟩ | hp'
    · subst hv
      exact nodupKeys_setAssoc _ _ _ hinner
    · exact h2 _ hp'

theorem rollupWF_build (units : List StatsToUpdate) :
    RollupWF (buildDailyStatsRollup units) := by
  have gen : ∀ acc, RollupWF acc → RollupWF (units.foldl dailyRollupStep acc) := by
    induction units with
    | nil => intro acc h; exact h
    | cons u rest ih =>
      intro acc h
      exact ih _ (rollupWF_step acc u h)
  exact gen [] rollupWF_nil

theorem rollupTasks_of_mem (rollup : DailyStatsRollup) (day : Int)
    (inner : List (String × List String)) (r : String) (tasks : List String)
    (hwf : RollupWF rollup) (h1 : (day, inner) ∈ rollup)
    (h2 : (r, tasks) ∈ inner) :
    rollupTasks rollup day r = tasks := by
  unfold rollupTasks
  rw [getAssoc_of_mem_nodup _ _ _ hwf.1 h1]
  simp only [Option.getD_some]
  rw [getAssoc_of_mem_nodup _ _ _ (hwf.2 _ h1) h2]
  rfl

/-! ### Trace shape lemmas for the dispatchers -/

theorem mem_iteratorOverHourlyStats (c : CacheHistoricalJobContext)
    (stats : List StatsToUpdate) (fn : GenerateStatsFn) (name : String)
    (call : GenCall)
    (h : call ∈ (iteratorOverHourlyStats c stats fn name).1) :
    ∃ stat ∈ stats,
      call.stage = Stage.hourly ∧ call.displayName = name ∧
      call.projectId = stat.ProjectId ∧ call.requester = stat.Requester ∧
      call.period = stat.Hour ∧
      call.tasks = filterIgnoredTasks stat.Tasks c.TasksToIgnore ∧
      call.jobDate = c.JobTime ∧ call.tasks ≠ [] := by
  induction stats with
  | nil => simp [iteratorOverHourlyStats] at h
  | cons stat rest ih =>
    simp only [iteratorOverHourlyStats] at h
    by_cases hlen : (filterIgnoredTasks stat.Tasks c.TasksToIgnore).length > 0
    · rw [if_pos hlen] at h
      have hne : filterIgnoredTasks stat.Tasks c.TasksToIgnore ≠ [] := by
        intro hc; rw [hc] at hlen; simp at hlen
      cases hres : fn stat.ProjectId stat.Requester stat.Hour
          (filterIgnoredTasks stat.Tasks c.TasksToIgnore) c.JobTime with
      | some e =>
        rw [hres] at h
        simp only [List.mem_singleton] at h
        subst h
        exact ⟨stat, List.mem_cons_self _ _, rfl, rfl, rfl, rfl, rfl, rfl, rfl, hne⟩
      | none =>
        rw [hres] at h
        simp only [List.mem_cons] at h
        rcases h with h | h
        · subst h
          exact ⟨stat, List.mem_cons_self _ _, rfl, rfl, rfl, rfl, rfl, rfl, rfl, hne⟩
        · obtain ⟨stat', hmem, hrest⟩ := ih h
          exact ⟨stat', List.mem_cons_of_mem _ hmem, hrest⟩
    · rw [if_neg hlen] at h
      obtain ⟨stat', hmem, hrest⟩ := ih h
      exact ⟨stat', List.mem_cons_of_mem _ hmem, hrest⟩

theorem mem_iteratorOverDailyRequesters (c : CacheHistoricalJobContext)
    (day : Int) (stats : List (String × List String)) (fn : GenerateStatsFn)
    (name : String) (call : GenCall)
    (h : call ∈ (iteratorOverDailyRequesters c day stats fn name).1) :
    ∃ rt ∈ stats,
      call.stage = Stage.daily ∧ call.displayName = name ∧
      call.projectId = c.ProjectId ∧ call.requester = rt.1 ∧
      call.period = day ∧
      call.tasks = filterIgnoredTasks rt.2 c.TasksToIgnore ∧
      call.jobDate = c.JobTime ∧ call.tasks ≠ [] := by
  induction stats with
  | nil => simp [iteratorOverDailyRequesters] at h
  | cons rt rest ih =>
    obtain ⟨r, tasks⟩ := rt
    simp only [iteratorOverDailyRequesters] at h
    by_cases hlen : (filterIgnoredTasks tasks c.TasksToIgnore).length > 0
    · rw [if_pos hlen] at h
      have hne : filterIgnoredTasks tasks c.TasksToIgnore ≠ [] := by
        intro hc; rw [hc] at hlen; simp at hlen
      cases hres : fn c.ProjectId r day
          (filterIgnoredTasks tasks c.TasksToIgnore) c.JobTime with
      | some e =>
        rw [hres] at h
        simp only [List.mem_singleton] at h
        subst h
        exact ⟨(r, tasks), List.mem_cons_self _ _, rfl, rfl, rfl, rfl, rfl, rfl, rfl, hne⟩
      | none =>
        rw [hres] at h
        simp only [List.mem_cons] at h
        rcases h with h | h
        · subst h
          exact ⟨(r, tasks), List.mem_cons_self _ _, rfl, rfl, rfl, rfl, rfl, rfl, rfl, hne⟩
        · obtain ⟨rt', hmem, hrest⟩ := ih h
          exact ⟨rt', List.mem_cons_of_mem _ hmem, hrest⟩
    · rw [if_neg hlen] at h
      obtain ⟨rt', hmem, hrest⟩ := ih h
      exact ⟨rt', List.mem_cons_of_mem _ hmem, hrest⟩

theorem mem_iteratorOverDailyStats (c : CacheHistoricalJobContext)
    (dailyStats : DailyStatsRollup) (fn : GenerateStatsFn) (name : String)
    (call : GenCall)
    (h : call ∈ (iteratorOverDailyStats c dailyStats fn name).1) :
    ∃ di ∈ dailyStats, ∃ rt ∈ di.2,
      call.stage = Stage.daily ∧ call.displayName = name ∧
      call.projectId = c.ProjectId ∧ call.requester = rt.1 ∧
      call.period = di.1 ∧
      call.tasks = filterIgnoredTasks rt.2 c.TasksToIgnore ∧
      call.jobDate = c.JobTime ∧ call.tasks ≠ [] := by
  induction dailyStats with
  | nil => simp [iteratorOverDailyStats] at h
  | cons di rest ih =>
    obtain ⟨day, inner⟩ := di
    simp only [iteratorOverDailyStats] at h
    cases hres : (iteratorOverDailyRequesters c day inner fn name).2 with
    | some e =>
      rw [hres] at h
      simp only at h
      obtain ⟨rt, hrt, hshape⟩ := mem_iteratorOverDailyRequesters c day inner fn name call h
      exact ⟨(day, inner), List.mem_cons_self _ _, rt, hrt, hshape⟩
    | none =>
      rw [hres] at h
      simp only [List.mem_append] at h
      rcases h with h | h
      · obtain ⟨rt, hrt, hshape⟩ := mem_iteratorOverDailyRequesters c day inner fn name call h
        exact ⟨(day, inner), List.mem_cons_self _ _, rt, hrt, hshape⟩
      · obtain ⟨di', hdi, hrest⟩ := ih h
        exact ⟨di', List.mem_cons_of_mem _ hdi, hrest⟩

theorem mem_runHourlyFns (c : CacheHistoricalJobContext)
    (stats : List StatsToUpdate) (fns : List (String × GenerateStatsFn))
    (call : GenCall) (h : call ∈ (runHourlyFns c stats fns).1) :
    ∃ nf ∈ fns, call ∈ (iteratorOverHourlyStats c stats nf.2 nf.1).1 := by
  induction fns with
  | nil => simp [runHourlyFns] at h
  | cons nf rest ih =>
    obtain ⟨name, fn⟩ := nf
    simp only [runHourlyFns] at h
    cases hres : (iteratorOverHourlyStats c stats fn name).2 with
    | some e =>
      rw [hres] at h
      simp only at h
      exact ⟨(name, fn), List.mem_cons_self _ _, h⟩
    | none =>
      rw [hres] at h
      simp only [List.mem_append] at h
      rcases h with h | h
      · exact ⟨(name, fn), List.mem_cons_self _ _, h⟩
      · obtain ⟨nf', hm, hc⟩ := ih h
        exact ⟨nf', List.mem_cons_of_mem _ hm, hc⟩

theorem mem_runDailyFns (c : CacheHistoricalJobContext)
    (dailyStats : DailyStatsRollup) (fns : List (String × GenerateStatsFn))
    (call : GenCall) (h : call ∈ (runDailyFns c dailyStats fns).1) :
    ∃ nf ∈ fns, call ∈ (iteratorOverDailyStats c dailyStats nf.2 nf.1).1 := by
  induction fns with
  | nil => simp [runDailyFns] at h
  | cons nf rest ih =>
    obtain ⟨name, fn⟩ := nf
    simp only [runDailyFns] at h
    cases hres : (iteratorOverDailyStats c dailyStats fn name).2 with
    | some e =>
      rw [hres] at h
      simp only at h
      exact ⟨(name, fn), List.mem_cons_self _ _, h⟩
    | none =>
      rw [hres] at h
      simp only [List.mem_append] at h
      rcases h with h | h
      · exact ⟨(name, fn), List.mem_cons_self _ _, h⟩
      · obtain ⟨nf', hm, hc⟩ := ih h
        exact ⟨nf', List.mem_cons_of_mem _ hm, hc⟩

/-! ### Fail-fast lemmas -/

theorem failFast_nil : FailFast ([], none) := by
  constructor
  · intro _ c hc; simp at hc
  · intro h; exact absurd rfl h

theorem failFast_err_call (call : GenCall) (msg : String)
    (hcall : call.result ≠ none) : FailFast ([call], some msg) := by
  constructor
  · intro h; simp at h
  · intro _
    exact ⟨[], call, by simp, by intro c hc; simp at hc, hcall⟩

theorem failFast_cons_ok (call : GenCall) (p : List GenCall × Option String)
    (hcall : call.result = none) (hp : FailFast p) :
    FailFast (call :: p.1, p.2) := by
  constructor
  · intro h2 c hc
    rcases List.mem_cons.mp hc with rfl | hc
    · exact hcall
    · exact hp.1 h2 c hc
  · intro h2
    obtain ⟨tr, cl, htr, hall, hcl⟩ := hp.2 h2
    refine ⟨call :: tr, cl, ?_, ?_, hcl⟩
    · show call :: p.1 = (call :: tr) ++ [cl]
      rw [htr]; rfl
    · intro c hc
      rcases List.mem_cons.mp hc with rfl | hc
      · exact hcall
      · exact hall c hc

theorem failFast_stop (p : List GenCall × Option String) (e : String)
    (hp : FailFast p) (hpe : p.2 = some e) : FailFast (p.1, some e) := by
  constructor
  · intro h; simp at h
  · intro _
    exact hp.2 (by rw [hpe]; simp)

theorem failFast_join (p q : List GenCall × Option String)
    (hp : FailFast p) (hpn : p.2 = none) (hq : FailFast q) :
    FailFast (p.1 ++ q.1, q.2) := by
  constructor
  · intro h2 c hc
    rcases List.mem_append.mp hc with hc | hc
    · exact hp.1 hpn c hc
    · exact hq.1 h2 c hc
  · intro h2
    obtain ⟨tr, cl, htr, hall, hcl⟩ := hq.2 h2
    refine ⟨p.1 ++ tr, cl, ?_, ?_, hcl⟩
    · show p.1 ++ q.1 = (p.1 ++ tr) ++ [cl]
      rw [htr, List.append_assoc]
    · intro c hc
      rcases List.mem_append.mp hc with hc | hc
      · exact hp.1 hpn c hc
      · exact hall c hc

theorem failFast_iteratorOverHourlyStats (c : CacheHistoricalJobContext)
    (stats : List StatsToUpdate) (fn : GenerateStatsFn) (name : String) :
    FailFast (iteratorOverHourlyStats c stats fn name) := by
  induction stats with
  | nil => exact failFast_nil
  | cons stat rest ih =>
    by_cases hlen : (filterIgnoredTasks stat.Tasks c.TasksToIgnore).length > 0
    · cases hres : fn stat.ProjectId stat.Requester stat.Hour
          (filterIgnoredTasks stat.Tasks c.TasksToIgnore) c.JobTime with
      | some e =>
        have heq : iteratorOverHourlyStats c (stat :: rest) fn name =
            ([⟨Stage.hourly, name, stat.ProjectId, stat.Requester, stat.Hour,
              filterIgnoredTasks stat.Tasks c.TasksToIgnore, c.JobTime, some e⟩],
             some ("Could not sync hourly stats: " ++ e)) := by
          simp [iteratorOverHourlyStats, hlen, hres]
        rw [heq]
        exact failFast_err_call _ _ (by simp)
      | none =>
        have heq : iteratorOverHourlyStats c (stat :: rest) fn name =
            (⟨Stage.hourly, name, stat.ProjectId, stat.Requester, stat.Hour,
              filterIgnoredTasks stat.Tasks c.TasksToIgnore, c.JobTime, none⟩ ::
              (iteratorOverHourlyStats c rest fn name).1,
             (iteratorOverHourlyStats c rest fn name).2) := by
          simp [iteratorOverHourlyStats, hlen, hres]
        rw [heq]
        exact failFast_cons_ok _ _ rfl ih
    · have heq : iteratorOverHourlyStats c (stat :: rest) fn name =
          iteratorOverHourlyStats c rest fn name := by
        simp [iteratorOverHourlyStats, hlen]
      rw [heq]
      exact ih

theorem failFast_iteratorOverDailyRequesters (c : CacheHistoricalJobContext)
    (day : Int) (stats : List (String × List String)) (fn : GenerateStatsFn)
    (name : String) :
    FailFast (iteratorOverDailyRequesters c day stats fn name) := by
  induction stats with
  | nil => exact failFast_nil
  | cons rt rest ih =>
    obtain ⟨r, tasks⟩ := rt
    by_cases hlen : (filterIgnoredTasks tasks c.TasksToIgnore).length > 0
    · cases hres : fn c.ProjectId r day
          (filterIgnoredTasks tasks c.TasksToIgnore) c.JobTime with
      | some e =>
        have heq : iteratorOverDailyRequesters c day ((r, tasks) :: rest) fn name =
            ([⟨Stage.daily, name, c.ProjectId, r, day,
              filterIgnoredTasks tasks c.TasksToIgnore, c.JobTime, some e⟩],
             some ("Could not sync daily stats: " ++ e)) := by
          simp [iteratorOverDailyRequesters, hlen, hres]
        rw [heq]
        exact failFast_err_call _ _ (by simp)
      | none =>
        have heq : iteratorOverDailyRequesters c day ((r, tasks) :: rest) fn name =
            (⟨Stage.daily, name, c.ProjectId, r, day,
              filterIgnoredTasks tasks c.TasksToIgnore, c.JobTime, none⟩ ::
              (iteratorOverDailyRequesters c day rest fn name).1,
             (iteratorOverDailyRequesters c day rest fn name).2) := by
          simp [iteratorOverDailyRequesters, hlen, hres]
        rw [heq]
        exact failFast_cons_ok _ _ rfl ih
    · have heq : iteratorOverDailyRequesters c day ((r, tasks) :: rest) fn name =
          iteratorOverDailyRequesters c day rest fn name := by
        simp [iteratorOverDailyRequesters, hlen]
      rw [heq]
      exact ih

theorem failFast_iteratorOverDailyStats (c : CacheHistoricalJobContext)
    (dailyStats : DailyStatsRollup) (fn : GenerateStatsFn) (name : String) :
    FailFast (iteratorOverDailyStats c dailyStats fn name) := by
  induction dailyStats with
  | nil => exact failFast_nil
  | cons di rest ih =>
    obtain ⟨day, inner⟩ := di
    cases hres : (iteratorOverDailyRequesters c day inner fn name).2 with
    | some e =>
      have heq : iteratorOverDailyStats c ((day, inner) :: rest) fn name =
          ((iteratorOverDailyRequesters c day inner fn name).1, some e) := by
        simp [iteratorOverDailyStats, hres]
      rw [heq]
      exact failFast_stop _ _ (failFast_iteratorOverDailyRequesters c day inner fn name) hres
    | none =>
      have heq : iteratorOverDailyStats c ((day, inner) :: rest) fn name =
          ((iteratorOverDailyRequesters c day inner fn name).1 ++
            (iteratorOverDailyStats c rest fn name).1,
           (iteratorOverDailyStats c rest fn name).2) := by
        simp [iteratorOverDailyStats, hres]
      rw [heq]
      exact failFast_join _ _ (failFast_iteratorOverDailyRequesters c day inner fn name) hres ih

theorem failFast_runHourlyFns (c : CacheHistoricalJobContext)
    (stats : List StatsToUpdate) (fns : List (String × GenerateStatsFn)) :
    FailFast (runHourlyFns c stats fns) := by
  induction fns with
  | nil => exact failFast_nil
  | cons nf rest ih =>
    obtain ⟨name, fn⟩ := nf
    cases hres : (iteratorOverHourlyStats c stats fn name).2 with
    | some e =>
      have heq : runHourlyFns c stats ((name, fn) :: rest) =
          ((iteratorOverHourlyStats c stats fn name).1, some e) := by
        simp [runHourlyFns, hres]
      rw [heq]
      exact failFast_stop _ _ (failFast_iteratorOverHourlyStats c stats fn name) hres
    | none =>
      have heq : runHourlyFns c stats ((name, fn) :: rest) =
          ((iteratorOverHourlyStats c stats fn name).1 ++
            (runHourlyFns c stats rest).1, (runHourlyFns c stats rest).2) := by
        simp [runHourlyFns, hres]
      rw [heq]
      exact failFast_join _ _ (failFast_iteratorOverHourlyStats c stats fn name) hres ih

theorem failFast_runDailyFns (c : CacheHistoricalJobContext)
    (dailyStats : DailyStatsRollup) (fns : List (String × GenerateStatsFn)) :
    FailFast (runDailyFns c dailyStats fns) := by
  induction fns with
  | nil => exact failFast_nil
  | cons nf rest ih =>
    obtain ⟨name, fn⟩ := nf
    cases hres : (iteratorOverDailyStats c dailyStats fn name).2 with
    | some e =>
      have heq : runDailyFns c dailyStats ((name, fn) :: rest) =
          ((iteratorOverDailyStats c dailyStats fn name).1, some e) := by
        simp [runDailyFns, hres]
      rw [heq]
      exact failFast_stop _ _ (failFast_iteratorOverDailyStats c dailyStats fn name) hres
    | none =>
      have heq : runDailyFns c dailyStats ((name, fn) :: rest) =
          ((iteratorOverDailyStats c dailyStats fn name).1 ++
            (runDailyFns c dailyStats rest).1, (runDailyFns c dailyStats rest).2) := by
        simp [runDailyFns, hres]
      rw [heq]
      exact failFast_join _ _ (failFast_iteratorOverDailyStats c dailyStats fn name) hres ih

theorem failFast_updateHourlyAndDailyStats (c : CacheHistoricalJobContext)
    (stats : List StatsToUpdate) (fns : GenerateFunctions) :
    FailFast (updateHourlyAndDailyStats c stats fns) := by
  cases hres : (runHourlyFns c stats fns.HourlyFns).2 with
  | some e =>
    have heq : updateHourlyAndDailyStats c stats fns =
        ((runHourlyFns c stats fns.HourlyFns).1, some e) := by
      simp [updateHourlyAndDailyStats, hres]
    rw [heq]
    exact failFast_stop _ _ (failFast_runHourlyFns c stats fns.HourlyFns) hres
  | none =>
    have heq : updateHourlyAndDailyStats c stats fns =
        ((runHourlyFns c stats fns.HourlyFns).1 ++
          (runDailyFns c (buildDailyStatsRollup stats) fns.DailyFns).1,
         (runDailyFns c (buildDailyStatsRollup stats) fns.DailyFns).2) := by
      simp [updateHourlyAndDailyStats, hres]
    rw [heq]
    exact failFast_join _ _ (failFast_runHourlyFns c stats fns.HourlyFns) hres
      (failFast_runDailyFns c (buildDailyStatsRollup stats) fns.DailyFns)

/-- Every generator call recorded by a full dispatch has a non-empty task
list (units and buckets emptied by filtering are skipped). -/
theorem tasks_ne_nil_updateHourlyAndDailyStats (c : CacheHistoricalJobContext)
    (stats : List StatsToUpdate) (fns : GenerateFunctions) (call : GenCall)
    (hmem : call ∈ (updateHourlyAndDailyStats c stats fns).1) :
    call.tasks ≠ [] := by
  have hH : ∀ call' ∈ (runHourlyFns c stats fns.HourlyFns).1, call'.tasks ≠ [] := by
    intro call' hc
    obtain ⟨nf, -, hit⟩ := mem_runHourlyFns c stats fns.HourlyFns call' hc
    obtain ⟨stat, -, -, -, -, -, -, -, -, hne⟩ :=
      mem_iteratorOverHourlyStats c stats nf.2 nf.1 call' hit
    exact hne
  have hD : ∀ call' ∈ (runDailyFns c (buildDailyStatsRollup stats) fns.DailyFns).1,
      call'.tasks ≠ [] := by
    intro call' hc
    obtain ⟨nf, -, hit⟩ :=
      mem_runDailyFns c (buildDailyStatsRollup stats) fns.DailyFns call' hc
    obtain ⟨di, -, rt, -, -, -, -, -, -, -, -, hne⟩ :=
      mem_iteratorOverDailyStats c (buildDailyStatsRollup stats) nf.2 nf.1 call' hit
    exact hne
  cases hres : (runHourlyFns c stats fns.HourlyFns).2 with
  | some e =>
    have heq : updateHourlyAndDailyStats c stats fns =
        ((runHourlyFns c stats fns.HourlyFns).1, some e) := by
      simp [updateHourlyAndDailyStats, hres]
    rw [heq] at hmem
    exact hH call hmem
  | none =>
    have heq : updateHourlyAndDailyStats c stats fns =
        ((runHourlyFns c stats fns.HourlyFns).1 ++
          (runDailyFns c (buildDailyStatsRollup stats) fns.DailyFns).1,
         (runDailyFns c (buildDailyStatsRollup stats) fns.DailyFns).2) := by
      simp [updateHourlyAndDailyStats, hres]
    rw [heq] at hmem
    rcases List.mem_append.mp hmem with hc | hc
    · exact hH call hc
    · exact hD call hc

/-- **C2**: all hourly generator invocations strictly precede all daily
ones (the trace splits into an hourly prefix and a daily suffix, and an
hourly failure leaves the trace entirely hourly), and dispatch is
fail-fast: every call before the last succeeded and a reported error
comes from the final, failing call. -/
theorem generator_dispatch_ordering_and_failfast
    (c : CacheHistoricalJobContext) (stats : List StatsToUpdate)
    (fns : GenerateFunctions) :
    (∃ h d, (updateHourlyAndDailyStats c stats fns).1 = h ++ d ∧
      (∀ call ∈ h, call.stage = Stage.hourly) ∧
      (∀ call ∈ d, call.stage = Stage.daily)) ∧
    ((∃ call ∈ (updateHourlyAndDailyStats c stats fns).1,
        call.stage = Stage.hourly ∧ call.result ≠ none) →
      ∀ call ∈ (updateHourlyAndDailyStats c stats fns).1,
        call.stage = Stage.hourly) ∧
    FailFast (updateHourlyAndDailyStats c stats fns) := by
  have hhourly : ∀ call ∈ (runHourlyFns c stats fns.HourlyFns).1,
      call.stage = Stage.hourly := by
    intro call hc
    obtain ⟨nf, -, hit⟩ := mem_runHourlyFns c stats fns.HourlyFns call hc
    obtain ⟨stat, -, hst, -⟩ :=
      mem_iteratorOverHourlyStats c stats nf.2 nf.1 call hit
    exact hst
  have hdaily : ∀ call ∈
      (runDailyFns c (buildDailyStatsRollup stats) fns.DailyFns).1,
      call.stage = Stage.daily := by
    intro call hc
    obtain ⟨nf, -, hit⟩ :=
      mem_runDailyFns c (buildDailyStatsRollup stats) fns.DailyFns call hc
    obtain ⟨di, -, rt, -, hst, -⟩ :=
      mem_iteratorOverDailyStats c (buildDailyStatsRollup stats) nf.2 nf.1 call hit
    exact hst
  refine ⟨?_, ?_, failFast_updateHourlyAndDailyStats c stats fns⟩
  · cases hres : (runHourlyFns c stats fns.HourlyFns).2 with
    | some e =>
      have heq : updateHourlyAndDailyStats c stats fns =
          ((runHourlyFns c stats fns.HourlyFns).1, some e) := by
        simp [updateHourlyAndDailyStats, hres]
      rw [heq]
      exact ⟨(runHourlyFns c stats fns.HourlyFns).1, [], by simp, hhourly,
        by intro call hc; simp at hc⟩
    | none =>
      have heq : updateHourlyAndDailyStats c stats fns =
          ((runHourlyFns c stats fns.HourlyFns).1 ++
            (runDailyFns c (buildDailyStatsRollup stats) fns.DailyFns).1,
           (runDailyFns c (buildDailyStatsRollup stats) fns.DailyFns).2) := by
        simp [updateHourlyAndDailyStats, hres]
      rw [heq]
      exact ⟨(runHourlyFns c stats fns.HourlyFns).1,
        (runDailyFns c (buildDailyStatsRollup stats) fns.DailyFns).1,
        rfl, hhourly, hdaily⟩
  · cases hres : (runHourlyFns c stats fns.HourlyFns).2 with
    | some e =>
      have heq : updateHourlyAndDailyStats c stats fns =
          ((runHourlyFns c stats fns.HourlyFns).1, some e) := by
        simp [updateHourlyAndDailyStats, hres]
      rw [heq]
      intro _
      exact hhourly
    | none =>
      have heq : updateHourlyAndDailyStats c stats fns =
          ((runHourlyFns c stats fns.HourlyFns).1 ++
            (runDailyFns c (buildDailyStatsRollup stats) fns.DailyFns).1,
           (runDailyFns c (buildDailyStatsRollup stats) fns.DailyFns).2) := by
        simp [updateHourlyAndDailyStats, hres]
      rw [heq]
      rintro ⟨call, hc, hcs, hcr⟩
      exfalso
      rcases List.mem_append.mp hc with hc0 | hc0
      · exact hcr ((failFast_runHourlyFns c stats fns.HourlyFns).1 hres call hc0)
      · have hcd := hdaily call hc0
        rw [hcs] at hcd
        exact Stage.noConfusion hcd

/-- Witness for C2 at the spec §8 fail-fast scenario (three hourly
generators, the second failing): every recorded call is hourly, and the
dispatch outcome has the fail-fast shape. -/
theorem generator_dispatch_ordering_and_failfast_witness :
    (∀ call ∈ (updateHourlyAndDailyStats sampleCtx sampleStats failFastFns).1,
      call.stage = Stage.hourly) ∧
    FailFast (updateHourlyAndDailyStats sampleCtx sampleStats failFastFns) :=
  ⟨(generator_dispatch_ordering_and_failfast sampleCtx sampleStats failFastFns).2.1
      (by decide),
    (generator_dispatch_ordering_and_failfast sampleCtx sampleStats failFastFns).2.2⟩

/-- **C4**: the task list of every daily generator call equals the bucket,
at the call's (day, requester) key, of the rollup built from the
pre-filtered units, so a task name excluded by the ignore matcher never
reaches a daily generator. -/
theorem daily_tasklists_are_prefiltered_buckets
    (c : CacheHistoricalJobContext) (stats : List StatsToUpdate)
    (fns : GenerateFunctions) (call : GenCall)
    (hmem : call ∈ (updateHourlyAndDailyStats c stats fns).1)
    (hstage : call.stage = Stage.daily) :
    call.tasks =
      rollupTasks (buildDailyStatsRollup (specFilteredUnits stats c.TasksToIgnore))
        call.period call.requester ∧
    ∀ name, anyRegexMatch name c.TasksToIgnore = true → name ∉ call.tasks := by
  have hnotHourly : ¬ call ∈ (runHourlyFns c stats fns.HourlyFns).1 := by
    intro hc
    obtain ⟨nf, -, hit⟩ := mem_runHourlyFns c stats fns.HourlyFns call hc
    obtain ⟨stat, -, hst, -⟩ :=
      mem_iteratorOverHourlyStats c stats nf.2 nf.1 call hit
    rw [hstage] at hst
    exact Stage.noConfusion hst
  have hdailymem : call ∈
      (runDailyFns c (buildDailyStatsRollup stats) fns.DailyFns).1 := by
    cases hres : (runHourlyFns c stats fns.HourlyFns).2 with
    | some e =>
      have heq : updateHourlyAndDailyStats c stats fns =
          ((runHourlyFns c stats fns.HourlyFns).1, some e) := by
        simp [updateHourlyAndDailyStats, hres]
      rw [heq] at hmem
      exact absurd hmem hnotHourly
    | none =>
      have heq : updateHourlyAndDailyStats c stats fns =
          ((runHourlyFns c stats fns.HourlyFns).1 ++
            (runDailyFns c (buildDailyStatsRollup stats) fns.DailyFns).1,
           (runDailyFns c (buildDailyStatsRollup stats) fns.DailyFns).2) := by
        simp [updateHourlyAndDailyStats, hres]
      rw [heq] at hmem
      rcases List.mem_append.mp hmem with hc | hc
      · exact absurd hc hnotHourly
      · exact hc
  obtain ⟨nf, -, hit⟩ :=
    mem_runDailyFns c (buildDailyStatsRollup stats) fns.DailyFns call hdailymem
  obtain ⟨di, hdi, rt, hrt, -, -, -, hreq, hper, htasks, -, -⟩ :=
    mem_iteratorOverDailyStats c (buildDailyStatsRollup stats) nf.2 nf.1 call hit
  obtain ⟨day, inner⟩ := di
  obtain ⟨r, tasks⟩ := rt
  have hbucket : rollupTasks (buildDailyStatsRollup stats) day r = tasks :=
    rollupTasks_of_mem _ day inner r tasks (rollupWF_build stats) hdi hrt
  constructor
  · rw [htasks, hper, hreq]
    show filterIgnoredTasks tasks c.TasksToIgnore = _
    rw [← hbucket, filter_rollupTasks]
  · intro name hmatch hninc
    rw [htasks] at hninc
    have hnm := not_matched_of_mem_filterIgnoredTasks name tasks c.TasksToIgnore hninc
    rw [hmatch] at hnm
    exact Bool.noConfusion hnm

/-- Witness for C4: with the `^gen_` matcher and a unit
`["gen_x","keep_y"]`, the first daily call carries exactly the filtered
bucket `["keep_y"]` and contains no matched name. -/
theorem daily_tasklists_are_prefiltered_buckets_witness :
    (⟨Stage.daily, "test", "p", "r1", 10, ["keep_y"], 0, none⟩ : GenCall).tasks =
      rollupTasks
        (buildDailyStatsRollup (specFilteredUnits sampleMixedStats sampleIgnoreRegexps))
        10 "r1" ∧
    ∀ name, anyRegexMatch name sampleIgnoreRegexps = true →
      name ∉ (⟨Stage.daily, "test", "p", "r1", 10, ["keep_y"], 0, none⟩ : GenCall).tasks :=
  daily_tasklists_are_prefiltered_buckets ⟨"p", 0, sampleIgnoreRegexps⟩
    sampleMixedStats allOkFns
    ⟨Stage.daily, "test", "p", "r1", 10, ["keep_y"], 0, none⟩
    (by decide) (by decide)

/-- **C8**: filtering keeps, in order, exactly the task names matching no
ignore pattern (it is `List.filter` by non-matching); no generator call in
any dispatch trace carries an empty task list; `["gen_x","keep_y"]`
filtered through `^gen_` is `["keep_y"]`; and a unit whose task list
filters to empty is dropped (it produces no hourly call at all). -/
theorem filtering_removes_matched_and_drops_empty :
    (∀ (l : List String) (rs : List Regexp),
      filterIgnoredTasks l rs = l.filter (fun t => !anyRegexMatch t rs)) ∧
    (∀ (c : CacheHistoricalJobContext) (stats : List StatsToUpdate)
      (fns : GenerateFunctions) (call : GenCall),
      call ∈ (updateHourlyAndDailyStats c stats fns).1 → call.tasks ≠ []) ∧
    (createRegexpFromStrings ["^gen_"]).map
      (fun rs => filterIgnoredTasks ["gen_x", "keep_y"] rs) = .ok ["keep_y"] ∧
    (createRegexpFromStrings ["^gen_"]).map
      (fun rs => (iteratorOverHourlyStats ⟨"p", 0, rs⟩
        [⟨"p", "r", 1, 1, ["gen_x"]⟩] (fun _ _ _ _ _ => none) "test").1) =
      .ok [] :=
  ⟨filterIgnoredTasks_eq_filter, tasks_ne_nil_updateHourlyAndDailyStats,
    rfl, rfl⟩

/-- Witness for C8: the first hourly call of the all-success sample
dispatch has the non-empty task list `["a"]`. -/
theorem filtering_removes_matched_and_drops_empty_witness :
    (⟨Stage.hourly, "test", "p", "r1", 1, ["a"], 0, none⟩ : GenCall).tasks ≠ [] :=
  (filtering_removes_matched_and_drops_empty).2.1 sampleCtx sampleStats allOkFns
    ⟨Stage.hourly, "test", "p", "r1", 1, ["a"], 0, none⟩ (by decide)

/-- **C1**: the checkpoint update is the commit point: `UpdateStatsStatus`
is called, with the window's upper bound `to` as the new value, exactly
when the checkpoint read, ignore-pattern compilation, unit fetch, and
every hourly and daily generator call succeed; on any abort the run ends
without the checkpoint call, so the checkpoint is untouched and the next
invocation recomputes the same window from it. -/
theorem checkpoint_update_iff_full_success (j : RunInput) :
    ((run j).checkpointCall ≠ none ↔
      ∃ last rxs units,
        j.getStatsStatus = .ok ⟨last⟩ ∧
        getTasksToIgnore j.projectRefPatterns = .ok rxs ∧
        j.findStatsToUpdate last (findTargetTimeForSync last j.syncNow) =
          .ok units ∧
        (updateHourlyAndDailyStats ⟨j.projectId, j.jobTime, rxs⟩ units
          j.generateFns).2 = none) ∧
    (∀ t pu, (run j).checkpointCall = some (t, pu) →
      t = j.jobTime ∧ ∃ last, j.getStatsStatus = .ok ⟨last⟩ ∧
        pu = findTargetTimeForSync last j.syncNow) := by
  rw [run_checkpointCall j]
  cases hss : j.getStatsStatus with
  | error e =>
    constructor
    · constructor
      · intro h; exact absurd rfl h
      · rintro ⟨last', rxs', units', hlast', -⟩
        simp at hlast'
    · intro t pu hcp; simp at hcp
  | ok ss =>
    obtain ⟨last⟩ := ss
    cases hig : getTasksToIgnore j.projectRefPatterns with
    | error e =>
      constructor
      · constructor
        · intro h; exact absurd rfl h
        · rintro ⟨last', rxs', units', hlast', hig', -⟩
          simp at hlast'
          obtain ⟨rfl⟩ := hlast'
          simp at hig'
      · intro t pu hcp; simp at hcp
    | ok rxs =>
      simp only
      cases hfetch : j.findStatsToUpdate last
          (findTargetTimeForSync last j.syncNow) with
      | error e =>
        constructor
        · constructor
          · intro h; exact absurd rfl h
          · rintro ⟨last', rxs', units', hlast', hig', hfetch', -⟩
            simp at hlast'
            obtain ⟨rfl⟩ := hlast'
            simp at hig'
            subst hig'
            rw [hfetch] at hfetch'
            simp at hfetch'
        · intro t pu hcp; simp at hcp
      | ok units =>
        simp only
        cases hup : (updateHourlyAndDailyStats ⟨j.projectId, j.jobTime, rxs⟩
            units j.generateFns).2 with
        | some e =>
          simp only
          constructor
          · constructor
            · intro h; exact absurd rfl h
            · rintro ⟨last', rxs', units', hlast', hig', hfetch', hup'⟩
              simp at hlast'
              obtain ⟨rfl⟩ := hlast'
              simp at hig'
              subst hig'
              rw [hfetch] at hfetch'
              simp at hfetch'
              subst hfetch'
              rw [hup] at hup'
              simp at hup'
          · intro t pu hcp; simp at hcp
        | none =>
          simp only
          constructor
          · constructor
            · intro _; exact ⟨last, rxs, units, rfl, rfl, hfetch, hup⟩
            · intro _; simp
          · intro t pu hcp
            simp only [Option.some.injEq, Prod.mk.injEq] at hcp
            exact ⟨hcp.1.symm, last, rfl, hcp.2.symm⟩

/-- Witness for C1: the sample run succeeds at every step and makes the
checkpoint call with `to = 3`; conversely its checkpoint call implies
the success of each step. -/
theorem checkpoint_update_iff_full_success_witness :
    (run sampleRunInput).checkpointCall ≠ none ∧
    (5 = sampleRunInput.jobTime ∧ ∃ last,
      sampleRunInput.getStatsStatus = .ok ⟨last⟩ ∧
      (3 : Int) = findTargetTimeForSync last sampleRunInput.syncNow) :=
  ⟨((checkpoint_update_iff_full_success sampleRunInput).1).mpr
      ⟨0, [], [], rfl, rfl, rfl, rfl⟩,
    (checkpoint_update_iff_full_success sampleRunInput).2 5 3 (by decide)⟩

/-- **C7**: ignore-pattern compilation trims each pattern, skips those
trimming to empty (no compile, no error), and aborts fatally on an
invalid pattern before any unit fetch: a run with a failing compilation
does not depend on the stats source, records no generator call and leaves
the checkpoint untouched.  `["", "  ", "^gen_.*"]` compiles to exactly one
matcher; `"(["` fails compilation with an error. -/
theorem ignore_pattern_compilation :
    (∀ (p : String) (rest : List String), trimSpaces p = "" →
      createRegexpFromStrings (p :: rest) = createRegexpFromStrings rest) ∧
    (∀ (p : String) (rest : List String) (e : String),
      regexpCompile (trimSpaces p) = .error e → trimSpaces p ≠ "" →
      createRegexpFromStrings (p :: rest) =
        .error ("Could not compile regexp: " ++ e)) ∧
    (∀ (j : RunInput) (e : String)
      (f' : Int → Int → Except String (List StatsToUpdate)),
      getTasksToIgnore j.projectRefPatterns = .error e →
      run j = run { j with findStatsToUpdate := f' } ∧
      (run j).trace = [] ∧ (run j).checkpointCall = none) ∧
    (createRegexpFromStrings ["", "  ", "^gen_.*"]).map List.length = .ok 1 ∧
    regexpCompile "([" = .error "missing closing ]" := by
  refine ⟨?_, ?_, ?_, rfl, rfl⟩
  · intro p rest h
    simp [createRegexpFromStrings, h]
  · intro p rest e hc hne
    simp [createRegexpFromStrings, hne, hc]
  · intro j e f' hig
    have hig' : getTasksToIgnore
        ({ j with findStatsToUpdate := f' } : RunInput).projectRefPatterns =
        .error e := hig
    refine ⟨?_, ?_, ?_⟩ <;>
      cases hss : j.getStatsStatus <;>
      simp [run, hss, hig, hig']

/-- Witness for C7: skipping a whitespace-only pattern, and the observable
effects of a run carrying the invalid pattern `"(["`: identical behavior
under a changed stats source, empty trace, and no checkpoint call. -/
theorem ignore_pattern_compilation_witness :
    createRegexpFromStrings ["  ", "^gen_.*"] =
      createRegexpFromStrings ["^gen_.*"] ∧
    (run badPatternRunInput =
        run { badPatternRunInput with findStatsToUpdate := fun _ _ => .ok [] } ∧
      (run badPatternRunInput).trace = [] ∧
      (run badPatternRunInput).checkpointCall = none) :=
  ⟨(ignore_pattern_compilation).1 "  " ["^gen_.*"] rfl,
    (ignore_pattern_compilation).2.2.1 badPatternRunInput
      "Could not compile regexp: missing closing ]" (fun _ _ => .ok []) rfl⟩

/-- Witness for the amended C3: the sample run (checkpoint 0, now 3)
updates the checkpoint to 3 ≥ 0. -/
theorem processedUntil_nondecreasing_amended_witness :
    sampleRunInput.getStatsStatus = .ok ⟨0⟩ ∧
    (0 : Int) ≤ sampleRunInput.syncNow ∧
    (run sampleRunInput).checkpointCall = some (5, 3) ∧
    (0 : Int) ≤ 3 :=
  ⟨rfl, by norm_num [sampleRunInput], by decide,
    processedUntil_nondecreasing_amended sampleRunInput 0 5 3 rfl
      (by norm_num [sampleRunInput]) (by decide)⟩

end Evergreen

namespace Evergreen

theorem manifestModulesLoop_ok (inp : ManifestHandlerInput) (tok : String)
    (htok : inp.getGithubToken = .ok tok) :
    ∀ (mods : List ProjectModule) (acc : List (String × ManifestModule)),
      (∀ mo ∈ mods, ∃ su,
        inp.getBranchEvent tok mo.Owner mo.Repo mo.Branch = .ok su) →
      (manifestModulesLoop inp mods acc).2.2 = none ∧
      (manifestModulesLoop inp mods acc).2.1 =
        mods.map (fun mo => (mo.Owner, mo.Repo, mo.Branch)) := by
  intro mods
  induction mods with
  | nil => intro acc _; simp [manifestModulesLoop]
  | cons mo rest ih =>
    intro acc hok
    obtain ⟨su, hsu⟩ := hok mo (List.mem_cons_self _ _)
    have hrest := ih (setAssoc acc mo.Name ⟨mo.Branch, su.1, mo.Repo, mo.Owner, su.2⟩)
      (fun mo' hm => hok mo' (List.mem_cons_of_mem _ hm))
    simp [manifestModulesLoop, htok, hsu, hrest.1, hrest.2]

end Evergreen

namespace Evergreen

/-- **C9**: at-most-one-effective-insert for the manifest endpoint: when a
manifest already exists for the version it is returned verbatim with no
upstream query and no insert attempt; otherwise one upstream branch-head
query is made per declared module, an insert of the newly built manifest
is attempted, and when the insert reports a duplicate the handler
re-reads and returns the already-persisted manifest instead of erroring. -/
theorem manifest_at_most_one_effective_insert (inp : ManifestHandlerInput) :
    (∀ pr mods m, inp.findProjectRef = .ok pr →
      inp.findProject = .ok (some mods) →
      inp.findManifest = .ok (some m) →
      manifestLoadHandler inp = ⟨.json m, [], none⟩) ∧
    (∀ pr mods tok, inp.findProjectRef = .ok pr →
      inp.findProject = .ok (some mods) →
      inp.findManifest = .ok none →
      inp.taskVersion ≠ "" →
      inp.getGithubToken = .ok tok →
      (∀ mo ∈ mods, ∃ su,
        inp.getBranchEvent tok mo.Owner mo.Repo mo.Branch = .ok su) →
      (manifestLoadHandler inp).upstreamCalls =
        mods.map (fun mo => (mo.Owner, mo.Repo, mo.Branch)) ∧
      ∃ nm, (manifestLoadHandler inp).insertAttempted = some nm ∧
        nm.Id = inp.taskVersion ∧ nm.Revision = inp.taskRevision ∧
        nm.ProjectName = inp.taskProject ∧ nm.Branch = pr.Branch ∧
        (∀ m', inp.tryInsert nm = .ok true →
          inp.findManifestAgain = .ok (some m') →
          (manifestLoadHandler inp).response = .json m')) := by
  constructor
  · intro pr mods m h1 h2 h3
    simp [manifestLoadHandler, h1, h2, h3]
  · intro pr mods tok h1 h2 h3 hver htok hbr
    obtain ⟨hln, hlc⟩ := manifestModulesLoop_ok inp tok htok mods [] hbr
    cases htin : inp.tryInsert ⟨inp.taskVersion, inp.taskRevision,
        inp.taskProject, pr.Branch, (manifestModulesLoop inp mods []).1⟩ with
    | error e =>
      have heq : manifestLoadHandler inp =
          ⟨.loggedError 500 ("problem inserting manifest for project " ++
              inp.taskProject ++ ": " ++ e),
            (manifestModulesLoop inp mods []).2.1,
            some ⟨inp.taskVersion, inp.taskRevision, inp.taskProject,
              pr.Branch, (manifestModulesLoop inp mods []).1⟩⟩ := by
        simp [manifestLoadHandler, h1, h2, h3, hver, hln, htin]
      rw [heq]
      refine ⟨hlc, ⟨_, rfl, rfl, rfl, rfl, rfl, ?_⟩⟩
      intro m' hdup
      rw [htin] at hdup
      simp at hdup
    | ok dup =>
      cases dup with
      | false =>
        have heq : manifestLoadHandler inp =
            ⟨.json ⟨inp.taskVersion, inp.taskRevision, inp.taskProject,
                pr.Branch, (manifestModulesLoop inp mods []).1⟩,
              (manifestModulesLoop inp mods []).2.1,
              some ⟨inp.taskVersion, inp.taskRevision, inp.taskProject,
                pr.Branch, (manifestModulesLoop inp mods []).1⟩⟩ := by
          simp [manifestLoadHandler, h1, h2, h3, hver, hln, htin]
        rw [heq]
        refine ⟨hlc, ⟨_, rfl, rfl, rfl, rfl, rfl, ?_⟩⟩
        intro m' hdup
        rw [htin] at hdup
        simp at hdup
      | true =>
        cases hfa : inp.findManifestAgain with
        | error e =>
          have heq : manifestLoadHandler inp =
              ⟨.loggedError 400 ("problem getting latest manifest for project " ++
                  inp.taskProject ++ ": " ++ e),
                (manifestModulesLoop inp mods []).2.1,
                some ⟨inp.taskVersion, inp.taskRevision, inp.taskProject,
                  pr.Branch, (manifestModulesLoop inp mods []).1⟩⟩ := by
            simp [manifestLoadHandler, h1, h2, h3, hver, hln, htin, hfa]
          rw [heq]
          refine ⟨hlc, ⟨_, rfl, rfl, rfl, rfl, rfl, ?_⟩⟩
          intro m' _ hfa'
          simp at hfa'
        | ok om =>
          cases om with
          | none =>
            have heq : manifestLoadHandler inp =
                ⟨.json ⟨inp.taskVersion, inp.taskRevision, inp.taskProject,
                    pr.Branch, (manifestModulesLoop inp mods []).1⟩,
                  (manifestModulesLoop inp mods []).2.1,
                  some ⟨inp.taskVersion, inp.taskRevision, inp.taskProject,
                    pr.Branch, (manifestModulesLoop inp mods []).1⟩⟩ := by
              simp [manifestLoadHandler, h1, h2, h3, hver, hln, htin, hfa]
            rw [heq]
            refine ⟨hlc, ⟨_, rfl, rfl, rfl, rfl, rfl, ?_⟩⟩
            intro m' _ hfa'
            simp at hfa'
          | some m0 =>
            have heq : manifestLoadHandler inp =
                ⟨.json m0, (manifestModulesLoop inp mods []).2.1,
                  some ⟨inp.taskVersion, inp.taskRevision, inp.taskProject,
                    pr.Branch, (manifestModulesLoop inp mods []).1⟩⟩ := by
              simp [manifestLoadHandler, h1, h2, h3, hver, hln, htin, hfa]
            rw [heq]
            refine ⟨hlc, ⟨_, rfl, rfl, rfl, rfl, rfl, ?_⟩⟩
            intro m' _ hfa'
            simp at hfa'
            rw [hfa']

/-- Witness for C9: an existing manifest is returned verbatim with no
upstream call, and in the duplicate-insert race the handler returns the
re-read persisted manifest after exactly one upstream query. -/
theorem manifest_at_most_one_effective_insert_witness :
    manifestLoadHandler manifestFoundInput =
      ⟨.json ⟨"v1", "abc", "proj", "main", []⟩, [], none⟩ ∧
    (manifestLoadHandler manifestRaceInput).upstreamCalls =
      [("own", "repo", "dev")] ∧
    (manifestLoadHandler manifestRaceInput).response =
      .json ⟨"v1", "zzz", "proj", "main", []⟩ := by
  refine ⟨?_, ?_, ?_⟩
  · exact (manifest_at_most_one_effective_insert manifestFoundInput).1
      ⟨"proj", "main"⟩ [⟨"mod1", "own", "repo", "dev"⟩]
      ⟨"v1", "abc", "proj", "main", []⟩ rfl rfl rfl
  · have h := (manifest_at_most_one_effective_insert manifestRaceInput).2
      ⟨"proj", "main"⟩ [⟨"mod1", "own", "repo", "dev"⟩] "tok"
      rfl rfl rfl (by decide) rfl
      (fun mo _ => ⟨("sha1", "url1"), rfl⟩)
    exact h.1
  · have h := (manifest_at_most_one_effective_insert manifestRaceInput).2
      ⟨"proj", "main"⟩ [⟨"mod1", "own", "repo", "dev"⟩] "tok"
      rfl rfl rfl (by decide) rfl
      (fun mo _ => ⟨("sha1", "url1"), rfl⟩)
    obtain ⟨nm, -, -, -, -, -, himp⟩ := h.2
    exact himp ⟨"v1", "zzz", "proj", "main", []⟩ rfl rfl

end Evergreen

namespace Evergreen

/-- **C10**: task-name filtering distributes over concatenation, and
consequently filtering each concatenated daily bucket after the rollup
(as the daily iterator does) yields, at every (day, requester) key, the
same task list as building the rollup from pre-filtered hourly units. -/
theorem filtering_distributes_over_concat_and_rollup :
    (∀ (xs ys : List String) (rs : List Regexp),
      filterIgnoredTasks (xs ++ ys) rs =
        filterIgnoredTasks xs rs ++ filterIgnoredTasks ys rs) ∧
    (∀ (units : List StatsToUpdate) (rs : List Regexp) (d : Int) (r : String),
      filterIgnoredTasks (rollupTasks (buildDailyStatsRollup units) d r) rs =
        rollupTasks (buildDailyStatsRollup (specFilteredUnits units rs)) d r) :=
  ⟨filterIgnoredTasks_append, filter_rollupTasks⟩

end Evergreen
